import Mathlib

/-!
Verification of the logkit repository: a shallow embedding of the two
source packages and proofs of the specified properties.

Package `fctx` (the context tag registry) keeps two pieces of
package-level mutable state: the service identity `svc` and its
`sync.Once` guard; both are modelled explicitly as an `FctxState` value
threaded through `Init`.  A `context.Context` is modelled by the partial
map from `CtxKey` to stored values that `ctx.Value` exposes.  The
unchecked Go type assertion `val.(string)` is modelled by returning
`Except.error` (a panic) on a non-string stored value.

Package `logger` (the leveled logger) wraps go-kit's `log` package.  A
go-kit logger context is an accumulated keyvals list over a base sink
(`KitLogger`); `log.With` appends (padding odd-length results with
`ErrMissingValue`), `level.X` prepends the level key/value pair, and
`Log` hands context-keyvals-then-call-keyvals to the base sink and
returns the sink's write error.  Valuers (timestamp, caller, function)
stay symbolic: their runtime expansion depends on the clock and the call
stack, which the embedding keeps abstract; `callerV d` / `functionV d`
record the stack depth `d` the valuer was constructed with, which is the
part the specification talks about.
-/

namespace fctx

/-- Go `type ReqKey int`. -/
abbrev ReqKey := Int

/-- `ReqUnset ReqKey = iota` (0). -/
def ReqUnset : ReqKey := 0

/-- `ReqEndpoint` (1). -/
def ReqEndpoint : ReqKey := 1

/-- `ReqAuth` (2). -/
def ReqAuth : ReqKey := 2

/-- Go `type SvcKey int`. -/
abbrev SvcKey := Int

/-- `SvcUnset SvcKey = iota` (0). -/
def SvcUnset : SvcKey := 0

/-- `CtxKey` ties a `SvcKey` and a `ReqKey` together, allowing unique
context values per service without name collision. -/
structure CtxKey where
  svcKey : SvcKey
  reqKey : ReqKey
deriving DecidableEq

/-- A value stored in a `context.Context` under a `CtxKey`: either a Go
`string`, or any non-string value (Go `interface` dynamic typing). -/
inductive GoVal
  | str : String → GoVal
  | other : GoVal
deriving DecidableEq

/-- A request context, restricted to the `CtxKey`-keyed entries that the
registry observes through `ctx.Value`; `none` means no value is stored. -/
abbrev Ctx := CtxKey → Option GoVal

/-- The package-level mutable state of fctx: the `svc` variable together
with its `sync.Once` guard. -/
structure FctxState where
  svc : SvcKey
  onceDone : Bool
deriving DecidableEq

/-- The state at process start: `svc` holds the zero value `SvcUnset`
and the once guard has not fired. -/
def initialFctxState : FctxState := ⟨SvcUnset, false⟩

/-- `var serviceNameToSvcKey = map[string]SvcKey` with no entries: the
table of recognized service names is empty in the source. -/
def serviceNameToSvcKey : List (String × SvcKey) := []

/-- `fctx.Init(service)`: look `service` up in `serviceNameToSvcKey`;
on a hit `once.Do` stores the found key, otherwise `once.Do` stores
`SvcUnset`.  Either way the once guard fires at most once, so only the
first call can change `svc`. -/
def Init (st : FctxState) (service : String) : FctxState :=
  match serviceNameToSvcKey.lookup service with
  | some svcKey => if st.onceDone then st else ⟨svcKey, true⟩
  | none => if st.onceDone then st else ⟨SvcUnset, true⟩

/-- `NewContextKey(reqKey)` builds `CtxKey{svc, reqKey}` from the current
service identity (passed explicitly here). -/
def NewContextKey (svc : SvcKey) (reqKey : ReqKey) : CtxKey :=
  ⟨svc, reqKey⟩

/-- `selectedTags` determines what tags are extracted from the context;
the source map has the single entry endpoint ↦ ReqEndpoint. -/
def selectedTags : List (String × ReqKey) := [("endpoint", ReqEndpoint)]

/-- The loop of `MetricsTagsFromContext` over `selectedTags`: append the
tag name, then `"svc_unset"` when the identity is unset, `"unset"` when
the context has no value, else the stored value via the unchecked
assertion `val.(string)` — a non-string stored value panics, modelled as
`Except.error`. -/
def tagsLoop (svc : SvcKey) (ctx : Ctx) :
    List String → List (String × ReqKey) → Except String (List String)
  | tags, [] => Except.ok tags
  | tags, p :: rest =>
    let tags1 := tags ++ [p.1]
    if svc = SvcUnset then tagsLoop svc ctx (tags1 ++ ["svc_unset"]) rest
    else
      match ctx (NewContextKey svc p.2) with
      | none => tagsLoop svc ctx (tags1 ++ ["unset"]) rest
      | some (GoVal.str s) => tagsLoop svc ctx (tags1 ++ [s]) rest
      | some GoVal.other =>
          Except.error "panic: interface conversion to string"

/-- `MetricsTagsFromContext(ctx)`: run the extraction loop over the
selected tags starting from the empty tag list. -/
def MetricsTagsFromContext (svc : SvcKey) (ctx : Ctx) :
    Except String (List String) :=
  tagsLoop svc ctx [] selectedTags

/-- `LogTagsFromContext(ctx)`: call `MetricsTagsFromContext`, then copy
the result element by element into an `interface` slice
(`for i := range tags ... intfTags[i] = tags[i]`). -/
def LogTagsFromContext (svc : SvcKey) (ctx : Ctx) :
    Except String (List GoVal) :=
  match MetricsTagsFromContext svc ctx with
  | Except.error e => Except.error e
  | Except.ok tags =>
      Except.ok (List.ofFn (fun i : Fin tags.length => GoVal.str (tags.get i)))

/-- Specification-side description of `ExtractLogTags` (spec.md §4.1):
the very same data `ExtractMetricTags` produces, converted element-wise
to a generic value sequence — no new logic.  Stated with `List.map` to be
compared against the source's index loop. -/
def ExtractLogTagsSpec (svc : SvcKey) (ctx : Ctx) :
    Except String (List GoVal) :=
  (MetricsTagsFromContext svc ctx).map (fun tags => tags.map GoVal.str)

end fctx

/-! ## Helper lemmas about fctx -/

/-- One `Init` step keeps a reset identity reset (the lookup table is
empty, so the hit branch is dead). -/
theorem fctx_init_svc_unset (st : fctx.FctxState) (n : String)
    (h : st.svc = fctx.SvcUnset) : (fctx.Init st n).svc = fctx.SvcUnset := by
  unfold fctx.Init
  cases hd : st.onceDone <;> simp [fctx.serviceNameToSvcKey, List.lookup, hd, h]

/-- Any sequence of `Init` calls keeps the identity at `SvcUnset`. -/
theorem fctx_foldl_svc_unset (names : List String) (st : fctx.FctxState)
    (h : st.svc = fctx.SvcUnset) :
    (names.foldl fctx.Init st).svc = fctx.SvcUnset := by
  induction names generalizing st with
  | nil => simpa using h
  | cons n rest ih => exact ih _ (fctx_init_svc_unset st n h)

/-- Once the guard has fired, `Init` is the identity on the state. -/
theorem fctx_init_after_once (st : fctx.FctxState) (n : String)
    (h : st.onceDone = true) : fctx.Init st n = st := by
  unfold fctx.Init
  cases hl : fctx.serviceNameToSvcKey.lookup n <;> simp [h]

/-- The first `Init` call fires the once guard. -/
theorem fctx_init_fires_once (n : String) :
    (fctx.Init fctx.initialFctxState n).onceDone = true := by
  unfold fctx.Init
  cases hl : fctx.serviceNameToSvcKey.lookup n <;>
    simp [fctx.initialFctxState]

/-- Extraction with an unset identity yields the sentinel pair. -/
theorem fctx_metrics_at_unset (ctx : fctx.Ctx) :
    fctx.MetricsTagsFromContext fctx.SvcUnset ctx
      = Except.ok ["endpoint", "svc_unset"] := rfl

/-- Extraction succeeds whenever every stored value is a string. -/
theorem fctx_metrics_ok_of_strings (s : fctx.SvcKey) (ctx : fctx.Ctx)
    (hstr : ∀ k v, ctx k = some v → ∃ t, v = fctx.GoVal.str t) :
    ∃ tags, fctx.MetricsTagsFromContext s ctx = Except.ok tags := by
  by_cases hs : s = fctx.SvcUnset
  · subst hs; exact ⟨["endpoint", "svc_unset"], rfl⟩
  · cases hval : ctx (fctx.NewContextKey s fctx.ReqEndpoint) with
    | none =>
        refine ⟨["endpoint", "unset"], ?_⟩
        unfold fctx.MetricsTagsFromContext fctx.selectedTags fctx.tagsLoop
        simp [hs, hval, fctx.tagsLoop]
    | some v =>
        obtain ⟨t, rfl⟩ := hstr _ v hval
        refine ⟨["endpoint", t], ?_⟩
        unfold fctx.MetricsTagsFromContext fctx.selectedTags fctx.tagsLoop
        simp [hs, hval, fctx.tagsLoop]

/-- Extraction with an initialized identity and no stored value for the
selected tag yields the sentinel "unset". -/
theorem fctx_metrics_missing_value (s : fctx.SvcKey) (ctx : fctx.Ctx)
    (hs : s ≠ fctx.SvcUnset)
    (hval : ctx (fctx.NewContextKey s fctx.ReqEndpoint) = none) :
    fctx.MetricsTagsFromContext s ctx = Except.ok ["endpoint", "unset"] := by
  unfold fctx.MetricsTagsFromContext fctx.selectedTags fctx.tagsLoop
  simp [hs, hval, fctx.tagsLoop]

/-- Whenever the metric extraction succeeds, the log extraction succeeds
with the element-wise generic conversion of the same data. -/
theorem fctx_logTags_of_metrics (s : fctx.SvcKey) (ctx : fctx.Ctx)
    (tags : List String)
    (h : fctx.MetricsTagsFromContext s ctx = Except.ok tags) :
    fctx.LogTagsFromContext s ctx = Except.ok (tags.map fctx.GoVal.str) := by
  unfold fctx.LogTagsFromContext
  rw [h]
  show Except.ok (List.ofFn fun i : Fin tags.length => fctx.GoVal.str (tags.get i))
    = Except.ok (List.map fctx.GoVal.str tags)
  congr 1
  have h1 : List.map fctx.GoVal.str (List.ofFn tags.get)
      = List.ofFn (fun i : Fin tags.length => fctx.GoVal.str (tags.get i)) := by
    rw [List.map_ofFn]
    rfl
  rw [← h1, List.ofFn_get]

/-! ## Claim theorems about fctx -/

/-- Claim C2: for every non-unset service identity (the code's notion of
an initialized identity) and every context that stores the string
"GetUser" under the namespaced key `NewContextKey(ReqEndpoint)`,
`MetricsTagsFromContext` returns exactly `["endpoint", "GetUser"]`. -/
theorem metricsTags_initialized_endpoint (s : fctx.SvcKey)
    (hs : s ≠ fctx.SvcUnset) (ctx : fctx.Ctx)
    (hctx : ctx (fctx.NewContextKey s fctx.ReqEndpoint)
      = some (fctx.GoVal.str "GetUser")) :
    fctx.MetricsTagsFromContext s ctx = Except.ok ["endpoint", "GetUser"] := by
  unfold fctx.MetricsTagsFromContext fctx.selectedTags fctx.tagsLoop
  simp [hs, hctx, fctx.tagsLoop]

/-- A concrete context storing endpoint ↦ "GetUser" for service key 1. -/
def ctxGetUser : fctx.Ctx := fun k =>
  if k = fctx.NewContextKey 1 fctx.ReqEndpoint then some (fctx.GoVal.str "GetUser")
  else none

/-- Witness for C2 at service key 1 and the concrete context. -/
theorem metricsTags_initialized_endpoint_witness :
    (1 : fctx.SvcKey) ≠ fctx.SvcUnset ∧
    ctxGetUser (fctx.NewContextKey 1 fctx.ReqEndpoint)
      = some (fctx.GoVal.str "GetUser") ∧
    fctx.MetricsTagsFromContext 1 ctxGetUser
      = Except.ok ["endpoint", "GetUser"] :=
  ⟨by decide, by decide,
    metricsTags_initialized_endpoint 1 (by decide) ctxGetUser (by decide)⟩

/-- Claim C3: the table of recognized service names is empty, every
sequence of `Init` calls leaves the identity at `SvcUnset`, and
consequently extraction always yields `["endpoint", "svc_unset"]`. -/
theorem serviceTable_empty_svc_unset :
    fctx.serviceNameToSvcKey = [] ∧
    (∀ names : List String,
      (names.foldl fctx.Init fctx.initialFctxState).svc = fctx.SvcUnset) ∧
    (∀ (names : List String) (ctx : fctx.Ctx),
      fctx.MetricsTagsFromContext
          (names.foldl fctx.Init fctx.initialFctxState).svc ctx
        = Except.ok ["endpoint", "svc_unset"]) := by
  refine ⟨rfl, fun names => fctx_foldl_svc_unset names _ rfl, ?_⟩
  intro names ctx
  rw [fctx_foldl_svc_unset names _ rfl]
  exact fctx_metrics_at_unset ctx

/-- Claim C4: `Init` has first-call-wins semantics — a second call with
any name leaves the state exactly as the first call established it — and
an unrecognized name initializes the identity to `SvcUnset`; the
operation total (it never errors). -/
theorem init_first_call_wins :
    (∀ n1 n2 : String,
      fctx.Init (fctx.Init fctx.initialFctxState n1) n2
        = fctx.Init fctx.initialFctxState n1) ∧
    (∀ n : String, fctx.serviceNameToSvcKey.lookup n = none →
      (fctx.Init fctx.initialFctxState n).svc = fctx.SvcUnset) := by
  constructor
  · intro n1 n2
    exact fctx_init_after_once _ n2 (fctx_init_fires_once n1)
  · intro n _
    exact fctx_init_svc_unset fctx.initialFctxState n rfl

/-- Witness for C4 at concrete service names. -/
theorem init_first_call_wins_witness :
    fctx.Init (fctx.Init fctx.initialFctxState "a") "b"
      = fctx.Init fctx.initialFctxState "a" ∧
    (fctx.Init fctx.initialFctxState "c").svc = fctx.SvcUnset :=
  ⟨init_first_call_wins.1 "a" "b", init_first_call_wins.2 "c" rfl⟩

/-- The everywhere-empty context. -/
def ctxEmpty : fctx.Ctx := fun _ => none

/-- Claim C6: the registry never fails or panics: under the spec's
precondition that every stored value is a string, both extraction
functions return normally for every identity and every context — the
panic branch of the type assertion is unreachable — and the missing-data
paths degrade to sentinel strings: an uninitialized identity yields
"svc_unset" and a missing context value yields "unset", in both the
metric and the log form. -/
theorem tags_extraction_total (s : fctx.SvcKey) (ctx : fctx.Ctx) :
    ((∀ k v, ctx k = some v → ∃ t, v = fctx.GoVal.str t) →
      (fctx.MetricsTagsFromContext s ctx).isOk = true ∧
      (fctx.LogTagsFromContext s ctx).isOk = true) ∧
    (s = fctx.SvcUnset →
      fctx.MetricsTagsFromContext s ctx = Except.ok ["endpoint", "svc_unset"] ∧
      fctx.LogTagsFromContext s ctx
        = Except.ok [fctx.GoVal.str "endpoint", fctx.GoVal.str "svc_unset"]) ∧
    (s ≠ fctx.SvcUnset → ctx (fctx.NewContextKey s fctx.ReqEndpoint) = none →
      fctx.MetricsTagsFromContext s ctx = Except.ok ["endpoint", "unset"] ∧
      fctx.LogTagsFromContext s ctx
        = Except.ok [fctx.GoVal.str "endpoint", fctx.GoVal.str "unset"]) := by
  refine ⟨?_, ?_, ?_⟩
  · intro hstr
    obtain ⟨tags, htags⟩ := fctx_metrics_ok_of_strings s ctx hstr
    refine ⟨by simp [htags, Except.isOk, Except.toBool], ?_⟩
    rw [fctx_logTags_of_metrics s ctx tags htags]
    simp [Except.isOk, Except.toBool]
  · intro hs
    subst hs
    exact ⟨fctx_metrics_at_unset ctx,
      fctx_logTags_of_metrics _ ctx _ (fctx_metrics_at_unset ctx)⟩
  · intro hs hval
    exact ⟨fctx_metrics_missing_value s ctx hs hval,
      fctx_logTags_of_metrics s ctx _ (fctx_metrics_missing_value s ctx hs hval)⟩

/-- Witness for C6: the totality part at identity 2 with the empty
context, the uninitialized-identity sentinel at `SvcUnset`, and the
missing-value sentinel at identity 2 with the empty context, each
obtained from the theorem with its hypotheses discharged there. -/
theorem tags_extraction_total_witness :
    (fctx.MetricsTagsFromContext 2 ctxEmpty).isOk = true ∧
    fctx.MetricsTagsFromContext fctx.SvcUnset ctxEmpty
      = Except.ok ["endpoint", "svc_unset"] ∧
    fctx.MetricsTagsFromContext 2 ctxEmpty = Except.ok ["endpoint", "unset"] ∧
    fctx.LogTagsFromContext 2 ctxEmpty
      = Except.ok [fctx.GoVal.str "endpoint", fctx.GoVal.str "unset"] :=
  ⟨((tags_extraction_total 2 ctxEmpty).1 (fun _ _ h => nomatch h)).1,
   ((tags_extraction_total fctx.SvcUnset ctxEmpty).2.1 rfl).1,
   ((tags_extraction_total 2 ctxEmpty).2.2 (by decide) rfl).1,
   ((tags_extraction_total 2 ctxEmpty).2.2 (by decide) rfl).2⟩

/-- Claim C7: `LogTagsFromContext` returns exactly the data of
`MetricsTagsFromContext`, element-wise wrapped as generic values — it
coincides with the spec-side description `ExtractLogTagsSpec`. -/
theorem logTags_refines_metricsTags (s : fctx.SvcKey) (ctx : fctx.Ctx) :
    fctx.LogTagsFromContext s ctx = fctx.ExtractLogTagsSpec s ctx := by
  unfold fctx.LogTagsFromContext fctx.ExtractLogTagsSpec
  cases h : fctx.MetricsTagsFromContext s ctx with
  | error e => rfl
  | ok tags =>
      simp only [Except.map]
      congr 1
      have h1 : List.map fctx.GoVal.str (List.ofFn tags.get)
          = List.ofFn (fun i : Fin tags.length => fctx.GoVal.str (tags.get i)) := by
        rw [List.map_ofFn]
        rfl
      rw [← h1, List.ofFn_get]

/-- Claim C8: with an uninitialized (unset) service identity, extraction
returns the sentinel value "svc_unset" for the selected endpoint tag,
regardless of the context's contents. -/
theorem metricsTags_uninitialized (ctx : fctx.Ctx) :
    fctx.MetricsTagsFromContext fctx.SvcUnset ctx
      = Except.ok ["endpoint", "svc_unset"] :=
  fctx_metrics_at_unset ctx

namespace logger

/-- A Go `error` value, identified by its message. -/
abbrev GoError := String

/-- A value that can appear in a keyvals sequence (a Go `interface`
value).  Valuers stay symbolic: `callerV d` / `functionV d` are the
deferred caller/function resolvers built at stack depth `d`, and
`timestampUTC` is `log.DefaultTimestampUTC`; `errMissingValue` is
go-kit's padding value for odd-length keyvals. -/
inductive LogVal
  | str : String → LogVal
  | lvl : String → LogVal
  | errv : Option GoError → LogVal
  | timestampUTC : LogVal
  | callerV : Int → LogVal
  | functionV : Int → LogVal
  | errMissingValue : LogVal
deriving DecidableEq

/-- The three base encoders `Init` can install. -/
inductive SinkKind
  | json
  | logfmt
  | nop
deriving DecidableEq

/-- A base go-kit logger: its encoding kind plus the outcome the
external writer (os.Stdout) would report for a write; the nop logger
never writes, so its `Log` always returns nil. -/
structure Sink where
  kind : SinkKind
  writeErr : Option GoError
deriving DecidableEq

/-- The error value the base logger's `Log` returns. -/
def sinkLogResult (s : Sink) : Option GoError :=
  match s.kind with
  | SinkKind.nop => none
  | _ => s.writeErr

/-- A go-kit logger context: the accumulated keyvals over a base sink. -/
structure KitLogger where
  keyvals : List LogVal
  sink : Sink
deriving DecidableEq

/-- go-kit `log.With(logger, keyvals...)`: no-op on an empty keyvals
list, otherwise append to the accumulated keyvals, padding an odd-length
result with `ErrMissingValue`; the base sink is shared unchanged. -/
def kitWith (l : KitLogger) (keyvals : List LogVal) : KitLogger :=
  if keyvals = [] then l
  else
    let kvs := l.keyvals ++ keyvals
    if kvs.length % 2 = 0 then ⟨kvs, l.sink⟩
    else ⟨kvs ++ [LogVal.errMissingValue], l.sink⟩

/-- go-kit `context.Log(keyvals...)`: the accumulated keyvals followed
by the call's keyvals (padded if odd) form the record handed to the base
sink; the first component is that record, the second the error value the
`Log` call returns to its caller. -/
def kitLog (l : KitLogger) (keyvals : List LogVal) :
    List LogVal × Option GoError :=
  let kvs := l.keyvals ++ keyvals
  if kvs.length % 2 = 0 then (kvs, sinkLogResult l.sink)
  else (kvs ++ [LogVal.errMissingValue], sinkLogResult l.sink)

/-- go-kit `level.Info/Debug/Warn/Error`: `log.WithPrefix` of the level
key and the level's value, so the severity appears as a record field. -/
def levelWith (name : String) (l : KitLogger) : KitLogger :=
  ⟨[LogVal.str "level", LogVal.lvl name] ++ l.keyvals, l.sink⟩

/-- `const nominalStackDepth = 3`. -/
def nominalStackDepth : Int := 3

/-- The `levels` struct: implements Leveler, stores the internal logger
that has all previous key value pairs added. -/
structure levels where
  internalLogger : KitLogger
deriving DecidableEq

/-- `levels.Info`. -/
def levels.Info (l : levels) : KitLogger := levelWith "info" l.internalLogger

/-- `levels.Debug`. -/
def levels.Debug (l : levels) : KitLogger := levelWith "debug" l.internalLogger

/-- `levels.Warn`. -/
def levels.Warn (l : levels) : KitLogger := levelWith "warn" l.internalLogger

/-- `levels.Error`. -/
def levels.Error (l : levels) : KitLogger := levelWith "error" l.internalLogger

/-- `levels.With`: wrap `log.With` on the internal logger, returning a
new `levels` value. -/
def levels.With (l : levels) (keyvals : List LogVal) : levels :=
  ⟨kitWith l.internalLogger keyvals⟩

/-- `levels.WithCustomDepth`: re-resolve `caller` and `function` at the
given depth, then layer the given keyvals on top. -/
def levels.WithCustomDepth (l : levels) (depth : Int) (keyvals : List LogVal) :
    levels :=
  (l.With [LogVal.str "caller", LogVal.callerV depth,
           LogVal.str "function", LogVal.functionV depth]).With keyvals

/-- `levels.LogError`: bind the keyvals at `nominalStackDepth+2`, select
Error level, and log the error under the key "err"; the value returned
to the caller is whatever that `Log` call returns. -/
def levels.LogError (l : levels) (err : Option GoError)
    (keyvals : List LogVal) : List LogVal × Option GoError :=
  kitLog (l.WithCustomDepth (nominalStackDepth + 2) keyvals).Error
    [LogVal.str "err", LogVal.errv err]

/-- Go `type LogFormat int32` (only equality comparisons occur, so the
32-bit width never matters). -/
abbrev LogFormat := Int

/-- `FormatLogfmt` (0). -/
def FormatLogfmt : LogFormat := 0

/-- `FormatJson` (1). -/
def FormatJson : LogFormat := 1

/-- `FormatNop` (2). -/
def FormatNop : LogFormat := 2

/-- `FormatDefault = FormatJson`. -/
def FormatDefault : LogFormat := FormatJson

/-- The package-level mutable state of logger: `defaultLevels` and
`defaultFormat`. -/
structure LoggerState where
  defaultLevels : levels
  defaultFormat : LogFormat
deriving DecidableEq

/-- `AddDefaultKeyvals`: layer the given keyvals onto `defaultLevels`.
(The accompanying re-pointing of the stdlib log redirection is an
external side effect on the `log` package and is not modelled.) -/
def AddDefaultKeyvals (st : LoggerState) (keyvals : List LogVal) :
    LoggerState :=
  { st with defaultLevels := st.defaultLevels.With keyvals }

/-- The state `Init` builds after installing a sink: a fresh
`defaultLevels` over the sink, then the three baseline keyvals. -/
def initState (s : Sink) (format : LogFormat) : LoggerState :=
  AddDefaultKeyvals ⟨⟨⟨[], s⟩⟩, format⟩
    [LogVal.str "timestamp", LogVal.timestampUTC,
     LogVal.str "file", LogVal.callerV nominalStackDepth,
     LogVal.str "function", LogVal.functionV nominalStackDepth]

/-- `logger.Init(format)`: select the encoder by format — JSON, logfmt
or nop — and panic (`Except.error`) on any other value; on success,
rebuild `defaultLevels` from the fresh sink and add the baseline
keyvals.  `stdoutErr` abstracts the outcome the injected os.Stdout
writer reports. -/
def Init (format : LogFormat) (stdoutErr : Option GoError) :
    Except String LoggerState :=
  if format = FormatJson then
    Except.ok (initState ⟨SinkKind.json, stdoutErr⟩ format)
  else if format = FormatLogfmt then
    Except.ok (initState ⟨SinkKind.logfmt, stdoutErr⟩ format)
  else if format = FormatNop then
    Except.ok (initState ⟨SinkKind.nop, stdoutErr⟩ format)
  else
    Except.error ("invalid log format: " ++ toString format)

/-- Package-level `With` over the current default state. -/
def With (st : LoggerState) (keyvals : List LogVal) : levels :=
  st.defaultLevels.With keyvals

/-- Package-level `WithCustomDepth` over the current default state. -/
def WithCustomDepth (st : LoggerState) (depth : Int)
    (keyvals : List LogVal) : levels :=
  st.defaultLevels.WithCustomDepth depth keyvals

/-- Package-level `LogError`: bind the keyvals at `nominalStackDepth+1`
(skipping this helper's own frame), select Error level, and log the
error under the key "err"; the function's return value is whatever that
`Log` call returns. -/
def LogError (st : LoggerState) (err : Option GoError)
    (keyvals : List LogVal) : List LogVal × Option GoError :=
  kitLog (st.defaultLevels.WithCustomDepth (nominalStackDepth + 1) keyvals).Error
    [LogVal.str "err", LogVal.errv err]

/-- The consecutive key/value pairs of a record. -/
def pairsOf : List LogVal → List (LogVal × LogVal)
  | k :: v :: rest => (k, v) :: pairsOf rest
  | _ => []

/-- The last-write-wins reading of a record: the value of the last pair
bound to a key (the JSON encoder's behavior on duplicate keys). -/
def lastBound (rec : List LogVal) (k : LogVal) : Option LogVal :=
  (((pairsOf rec).filter (fun p => p.1 == k)).getLast?).map Prod.snd

end logger

/-! ## Helper lemmas about the logger embedding -/

/-- `log.With` never touches the base sink. -/
theorem kitWith_sink (l : logger.KitLogger) (kvs : List logger.LogVal) :
    (logger.kitWith l kvs).sink = l.sink := by
  unfold logger.kitWith
  by_cases he : kvs = []
  · rw [if_pos he]
  · rw [if_neg he]
    show (if (l.keyvals ++ kvs).length % 2 = 0
        then (⟨l.keyvals ++ kvs, l.sink⟩ : logger.KitLogger)
        else ⟨(l.keyvals ++ kvs) ++ [logger.LogVal.errMissingValue], l.sink⟩).sink
      = l.sink
    by_cases hp : (l.keyvals ++ kvs).length % 2 = 0
    · rw [if_pos hp]
    · rw [if_neg hp]

/-- `log.With` on even-length data appends without padding. -/
theorem kitWith_keyvals (l : logger.KitLogger) (kvs : List logger.LogVal)
    (h : (l.keyvals.length + kvs.length) % 2 = 0) :
    (logger.kitWith l kvs).keyvals = l.keyvals ++ kvs := by
  have hlen : (l.keyvals ++ kvs).length % 2 = 0 := by
    rw [List.length_append]; exact h
  unfold logger.kitWith
  by_cases he : kvs = []
  · rw [if_pos he, he, List.append_nil]
  · rw [if_neg he]
    show (if (l.keyvals ++ kvs).length % 2 = 0
        then (⟨l.keyvals ++ kvs, l.sink⟩ : logger.KitLogger)
        else ⟨(l.keyvals ++ kvs) ++ [logger.LogVal.errMissingValue], l.sink⟩).keyvals
      = l.keyvals ++ kvs
    rw [if_pos hlen]

/-- `Log` on even-length data: the record is context-then-call keyvals
and the returned value is the sink's write result. -/
theorem kitLog_record (l : logger.KitLogger) (kvs : List logger.LogVal)
    (h : (l.keyvals.length + kvs.length) % 2 = 0) :
    logger.kitLog l kvs = (l.keyvals ++ kvs, logger.sinkLogResult l.sink) := by
  have hlen : (l.keyvals ++ kvs).length % 2 = 0 := by
    rw [List.length_append]; exact h
  unfold logger.kitLog
  show (if (l.keyvals ++ kvs).length % 2 = 0
      then (l.keyvals ++ kvs, logger.sinkLogResult l.sink)
      else ((l.keyvals ++ kvs) ++ [logger.LogVal.errMissingValue],
            logger.sinkLogResult l.sink))
    = (l.keyvals ++ kvs, logger.sinkLogResult l.sink)
  rw [if_pos hlen]

/-- `levels.With` on even-length data appends to the internal logger. -/
theorem levels_With_keyvals (l : logger.levels) (kvs : List logger.LogVal)
    (h : (l.internalLogger.keyvals.length + kvs.length) % 2 = 0) :
    (logger.levels.With l kvs).internalLogger.keyvals
      = l.internalLogger.keyvals ++ kvs :=
  kitWith_keyvals l.internalLogger kvs h

/-- `levels.With` shares the parent's sink. -/
theorem levels_With_sink (l : logger.levels) (kvs : List logger.LogVal) :
    (logger.levels.With l kvs).internalLogger.sink = l.internalLogger.sink :=
  kitWith_sink l.internalLogger kvs

/-- `WithCustomDepth` layers the caller/function valuers at the given
depth and then the keyvals, over the unchanged sink. -/
theorem withCustomDepth_internal (l : logger.levels) (depth : Int)
    (kvs : List logger.LogVal)
    (h0 : l.internalLogger.keyvals.length % 2 = 0)
    (h1 : kvs.length % 2 = 0) :
    (logger.levels.WithCustomDepth l depth kvs).internalLogger.keyvals
      = l.internalLogger.keyvals
        ++ [logger.LogVal.str "caller", logger.LogVal.callerV depth,
            logger.LogVal.str "function", logger.LogVal.functionV depth]
        ++ kvs ∧
    (logger.levels.WithCustomDepth l depth kvs).internalLogger.sink
      = l.internalLogger.sink := by
  unfold logger.levels.WithCustomDepth
  have hA : (logger.levels.With l
      [logger.LogVal.str "caller", logger.LogVal.callerV depth,
       logger.LogVal.str "function", logger.LogVal.functionV depth]).internalLogger.keyvals
      = l.internalLogger.keyvals
        ++ [logger.LogVal.str "caller", logger.LogVal.callerV depth,
            logger.LogVal.str "function", logger.LogVal.functionV depth] := by
    apply levels_With_keyvals
    simp only [List.length_cons, List.length_nil]
    omega
  constructor
  · rw [levels_With_keyvals _ kvs ?_, hA]
    rw [hA, List.length_append]
    simp only [List.length_cons, List.length_nil]
    omega
  · rw [levels_With_sink, levels_With_sink]

/-- The record and return value of a `WithCustomDepth ... .Error().Log("err", err)`
chain, for any depth. -/
theorem logError_shape (d : logger.levels) (depth : Int)
    (err : Option logger.GoError) (kvs : List logger.LogVal)
    (hd : d.internalLogger.keyvals.length % 2 = 0)
    (hk : kvs.length % 2 = 0) :
    logger.kitLog (d.WithCustomDepth depth kvs).Error
        [logger.LogVal.str "err", logger.LogVal.errv err]
      = ([logger.LogVal.str "level", logger.LogVal.lvl "error"]
          ++ d.internalLogger.keyvals
          ++ [logger.LogVal.str "caller", logger.LogVal.callerV depth,
              logger.LogVal.str "function", logger.LogVal.functionV depth]
          ++ kvs ++ [logger.LogVal.str "err", logger.LogVal.errv err],
         logger.sinkLogResult d.internalLogger.sink) := by
  obtain ⟨hkv, hsink⟩ := withCustomDepth_internal d depth kvs hd hk
  have hW : (d.WithCustomDepth depth kvs).Error
      = ⟨[logger.LogVal.str "level", logger.LogVal.lvl "error"]
          ++ (d.WithCustomDepth depth kvs).internalLogger.keyvals,
         (d.WithCustomDepth depth kvs).internalLogger.sink⟩ := rfl
  have hlen : ((d.WithCustomDepth depth kvs).Error.keyvals.length
      + ([logger.LogVal.str "err", logger.LogVal.errv err] : List logger.LogVal).length) % 2
      = 0 := by
    rw [hW]
    simp only [List.length_append, List.length_cons, List.length_nil]
    rw [hkv]
    simp only [List.length_append, List.length_cons, List.length_nil]
    omega
  rw [kitLog_record _ _ hlen, hW]
  simp only [hkv, hsink]
  simp [List.append_assoc]

/-- The total length of even-length keyvals chunks is even. -/
theorem join_length_even (kvss : List (List logger.LogVal))
    (h1 : ∀ kvs ∈ kvss, kvs.length % 2 = 0) :
    kvss.flatten.length % 2 = 0 := by
  induction kvss with
  | nil => simp
  | cons kvs rest ih =>
    have ha := h1 kvs (by simp)
    have hb := ih (fun x hx => h1 x (by simp [hx]))
    rw [List.flatten_cons, List.length_append]
    omega

/-- A fold of `With` calls appends the concatenation of all the chunks
and keeps the sink. -/
theorem foldWith_internal (kvss : List (List logger.LogVal)) (l : logger.levels)
    (h0 : l.internalLogger.keyvals.length % 2 = 0)
    (h1 : ∀ kvs ∈ kvss, kvs.length % 2 = 0) :
    (kvss.foldl logger.levels.With l).internalLogger.keyvals
      = l.internalLogger.keyvals ++ kvss.flatten ∧
    (kvss.foldl logger.levels.With l).internalLogger.sink
      = l.internalLogger.sink := by
  induction kvss generalizing l with
  | nil => simp
  | cons kvs rest ih =>
    have hk : kvs.length % 2 = 0 := h1 kvs (by simp)
    have hW : (logger.levels.With l kvs).internalLogger.keyvals
        = l.internalLogger.keyvals ++ kvs :=
      levels_With_keyvals l kvs (by omega)
    have hS : (logger.levels.With l kvs).internalLogger.sink
        = l.internalLogger.sink := levels_With_sink l kvs
    have h0' : (logger.levels.With l kvs).internalLogger.keyvals.length % 2 = 0 := by
      rw [hW, List.length_append]; omega
    obtain ⟨ha, hb⟩ := ih (logger.levels.With l kvs) h0'
      (fun x hx => h1 x (by simp [hx]))
    constructor
    · simp only [List.foldl_cons, List.flatten_cons]
      rw [ha, hW, List.append_assoc]
    · simp only [List.foldl_cons]
      rw [hb, hS]

/-- `pairsOf` distributes over append at an even split point. -/
theorem pairsOf_append : ∀ (l1 l2 : List logger.LogVal), l1.length % 2 = 0 →
    logger.pairsOf (l1 ++ l2) = logger.pairsOf l1 ++ logger.pairsOf l2
  | [], _, _ => by simp [logger.pairsOf]
  | [x], _, h => by simp at h
  | x :: y :: rest, l2, h => by
      have h' : rest.length % 2 = 0 := by
        simp only [List.length_cons] at h
        omega
      simp only [List.cons_append, logger.pairsOf, List.append_eq]
      rw [pairsOf_append rest l2 h']

/-- Prepending an even-length block does not change which value a key
last binds to, when the key is bound in the suffix. -/
theorem lastBound_append (pre call : List logger.LogVal)
    (hpre : pre.length % 2 = 0) (k v : logger.LogVal)
    (h : logger.lastBound call k = some v) :
    logger.lastBound (pre ++ call) k = some v := by
  unfold logger.lastBound at h ⊢
  rw [pairsOf_append pre call hpre, List.filter_append]
  have hne : (logger.pairsOf call).filter (fun p => p.1 == k) ≠ [] := by
    intro hnil
    rw [hnil] at h
    simp at h
  rw [List.getLast?_append_of_ne_nil _ hne]
  exact h

/-! ## Claim theorems about the logger -/

/-- Claim C5: a chain of `With` calls forked from a `levels` value
accumulates keyvals purely — the forked value layers new keyvals over
the parent's unchanged sink — and the record emitted from the final
value is the ordered concatenation of the ancestors' keyvals followed by
the latest chunks and the emission keyvals; on duplicate keys the
last-written pair is the one a last-write-wins reader observes. -/
theorem with_accumulates_keyvals (l : logger.levels)
    (kvss : List (List logger.LogVal)) (call : List logger.LogVal)
    (h0 : l.internalLogger.keyvals.length % 2 = 0)
    (h1 : ∀ kvs ∈ kvss, kvs.length % 2 = 0)
    (h2 : call.length % 2 = 0) :
    (logger.kitLog (kvss.foldl logger.levels.With l).Info call).1
      = [logger.LogVal.str "level", logger.LogVal.lvl "info"]
        ++ l.internalLogger.keyvals ++ kvss.flatten ++ call ∧
    (kvss.foldl logger.levels.With l).internalLogger.sink
      = l.internalLogger.sink ∧
    (∀ k v, logger.lastBound call k = some v →
      logger.lastBound
          ((logger.kitLog (kvss.foldl logger.levels.With l).Info call).1) k
        = some v) := by
  obtain ⟨hkv, hsink⟩ := foldWith_internal kvss l h0 h1
  have hjoin := join_length_even kvss h1
  have hFlen : (kvss.foldl logger.levels.With l).internalLogger.keyvals.length % 2
      = 0 := by
    rw [hkv, List.length_append]; omega
  have hInfo : (kvss.foldl logger.levels.With l).Info
      = ⟨[logger.LogVal.str "level", logger.LogVal.lvl "info"]
          ++ (kvss.foldl logger.levels.With l).internalLogger.keyvals,
         (kvss.foldl logger.levels.With l).internalLogger.sink⟩ := rfl
  have hIlen : ((kvss.foldl logger.levels.With l).Info.keyvals.length
      + call.length) % 2 = 0 := by
    rw [hInfo]
    simp only [List.length_append, List.length_cons, List.length_nil]
    omega
  have hrec := kitLog_record ((kvss.foldl logger.levels.With l).Info) call hIlen
  have hpre : (kvss.foldl logger.levels.With l).Info.keyvals.length % 2 = 0 := by
    rw [hInfo]
    simp only [List.length_append, List.length_cons, List.length_nil]
    omega
  refine ⟨?_, hsink, ?_⟩
  · rw [hrec]
    show (kvss.foldl logger.levels.With l).Info.keyvals ++ call = _
    rw [hInfo]
    show ([logger.LogVal.str "level", logger.LogVal.lvl "info"]
        ++ (kvss.foldl logger.levels.With l).internalLogger.keyvals) ++ call = _
    rw [hkv]
    simp [List.append_assoc]
  · intro k v hv
    rw [hrec]
    exact lastBound_append _ call hpre k v hv

/-- A parent logger over a JSON sink with no accumulated keyvals. -/
def l5 : logger.levels := ⟨⟨[], ⟨logger.SinkKind.json, none⟩⟩⟩

/-- Two forked keyvals chunks, the second shadowing key "k". -/
def kvss5 : List (List logger.LogVal) :=
  [[logger.LogVal.str "a", logger.LogVal.str "1"],
   [logger.LogVal.str "k", logger.LogVal.str "old"]]

/-- Emission keyvals rebinding key "k". -/
def call5 : List logger.LogVal :=
  [logger.LogVal.str "k", logger.LogVal.str "new"]

/-- Witness for C5 on a concrete fork chain with a duplicated key. -/
theorem with_accumulates_keyvals_witness :
    (logger.kitLog (kvss5.foldl logger.levels.With l5).Info call5).1
      = [logger.LogVal.str "level", logger.LogVal.lvl "info"]
        ++ l5.internalLogger.keyvals ++ kvss5.flatten ++ call5 ∧
    logger.lastBound
        ((logger.kitLog (kvss5.foldl logger.levels.With l5).Info call5).1)
        (logger.LogVal.str "k")
      = some (logger.LogVal.str "new") := by
  have h := with_accumulates_keyvals l5 kvss5 call5 (by decide) (by decide)
    (by decide)
  exact ⟨h.1, h.2.2 _ _ (by decide)⟩

/-- Claim C9 (amended): the package-level `LogError` resolves the
caller/function valuers via `WithCustomDepth` at `nominalStackDepth+1`,
while the `levels` method `LogError` resolves them at
`nominalStackDepth+2`; both select the Error level and write exactly one
record carrying the error under the fixed key "err" after the given
keyvals. -/
theorem logError_depths (st : logger.LoggerState) (l : logger.levels)
    (err : Option logger.GoError) (kvs : List logger.LogVal)
    (h1 : st.defaultLevels.internalLogger.keyvals.length % 2 = 0)
    (h2 : kvs.length % 2 = 0)
    (h3 : l.internalLogger.keyvals.length % 2 = 0) :
    logger.LogError st err kvs
      = ([logger.LogVal.str "level", logger.LogVal.lvl "error"]
          ++ st.defaultLevels.internalLogger.keyvals
          ++ [logger.LogVal.str "caller",
              logger.LogVal.callerV (logger.nominalStackDepth + 1),
              logger.LogVal.str "function",
              logger.LogVal.functionV (logger.nominalStackDepth + 1)]
          ++ kvs ++ [logger.LogVal.str "err", logger.LogVal.errv err],
         logger.sinkLogResult st.defaultLevels.internalLogger.sink) ∧
    logger.levels.LogError l err kvs
      = ([logger.LogVal.str "level", logger.LogVal.lvl "error"]
          ++ l.internalLogger.keyvals
          ++ [logger.LogVal.str "caller",
              logger.LogVal.callerV (logger.nominalStackDepth + 2),
              logger.LogVal.str "function",
              logger.LogVal.functionV (logger.nominalStackDepth + 2)]
          ++ kvs ++ [logger.LogVal.str "err", logger.LogVal.errv err],
         logger.sinkLogResult l.internalLogger.sink) :=
  ⟨logError_shape st.defaultLevels (logger.nominalStackDepth + 1) err kvs h1 h2,
   logError_shape l (logger.nominalStackDepth + 2) err kvs h3 h2⟩

/-- A `levels` value over a nop sink with no accumulated keyvals. -/
def l0 : logger.levels := ⟨⟨[], ⟨logger.SinkKind.nop, none⟩⟩⟩

/-- Counterexample to C9 as stated: the `levels` method `LogError` does
not resolve the caller valuer at `nominalStackDepth+1` — its record
carries the depth `nominalStackDepth+2` valuer and no depth
`nominalStackDepth+1` valuer. -/
theorem levels_logError_not_depth_plus_one :
    logger.LogVal.callerV (logger.nominalStackDepth + 2)
        ∈ (logger.levels.LogError l0 (some "boom") []).1 ∧
    logger.LogVal.callerV (logger.nominalStackDepth + 1)
        ∉ (logger.levels.LogError l0 (some "boom") []).1 := by
  decide

/-- A default state whose logger carries one accumulated pair over a
JSON sink. -/
def st9 : logger.LoggerState :=
  ⟨⟨⟨[logger.LogVal.str "app", logger.LogVal.str "x"],
     ⟨logger.SinkKind.json, none⟩⟩⟩, logger.FormatJson⟩

/-- Witness for the amended C9 at concrete inputs. -/
theorem logError_depths_witness :
    logger.LogError st9 (some "boom")
        [logger.LogVal.str "k", logger.LogVal.str "v"]
      = ([logger.LogVal.str "level", logger.LogVal.lvl "error"]
          ++ st9.defaultLevels.internalLogger.keyvals
          ++ [logger.LogVal.str "caller",
              logger.LogVal.callerV (logger.nominalStackDepth + 1),
              logger.LogVal.str "function",
              logger.LogVal.functionV (logger.nominalStackDepth + 1)]
          ++ [logger.LogVal.str "k", logger.LogVal.str "v"]
          ++ [logger.LogVal.str "err", logger.LogVal.errv (some "boom")],
         logger.sinkLogResult st9.defaultLevels.internalLogger.sink) ∧
    logger.levels.LogError l0 (some "boom")
        [logger.LogVal.str "k", logger.LogVal.str "v"]
      = ([logger.LogVal.str "level", logger.LogVal.lvl "error"]
          ++ l0.internalLogger.keyvals
          ++ [logger.LogVal.str "caller",
              logger.LogVal.callerV (logger.nominalStackDepth + 2),
              logger.LogVal.str "function",
              logger.LogVal.functionV (logger.nominalStackDepth + 2)]
          ++ [logger.LogVal.str "k", logger.LogVal.str "v"]
          ++ [logger.LogVal.str "err", logger.LogVal.errv (some "boom")],
         logger.sinkLogResult l0.internalLogger.sink) :=
  logError_depths st9 l0 (some "boom")
    [logger.LogVal.str "k", logger.LogVal.str "v"]
    (by decide) (by decide) (by decide)

/-- A default state over the nop sink with no accumulated keyvals. -/
def nopState : logger.LoggerState :=
  ⟨⟨⟨[], ⟨logger.SinkKind.nop, none⟩⟩⟩, logger.FormatNop⟩

/-- Claim C1 (code bug): evaluated at err = "boom" with keyvals
("k","v") over the nop sink, `LogError` returns the `Log` call's result
— the sink's write error, nil here — and not the error that was passed
in, even though the emitted record does carry "err" bound to the error
after the given keyvals; the `levels` method behaves the same way. -/
theorem logError_return_bug :
    (logger.LogError nopState (some "boom")
        [logger.LogVal.str "k", logger.LogVal.str "v"]).2 = none ∧
    (logger.LogError nopState (some "boom")
        [logger.LogVal.str "k", logger.LogVal.str "v"]).2 ≠ some "boom" ∧
    (logger.LogError nopState (some "boom")
        [logger.LogVal.str "k", logger.LogVal.str "v"]).1
      = [logger.LogVal.str "level", logger.LogVal.lvl "error",
         logger.LogVal.str "caller",
         logger.LogVal.callerV (logger.nominalStackDepth + 1),
         logger.LogVal.str "function",
         logger.LogVal.functionV (logger.nominalStackDepth + 1),
         logger.LogVal.str "k", logger.LogVal.str "v",
         logger.LogVal.str "err", logger.LogVal.errv (some "boom")] ∧
    (logger.levels.LogError nopState.defaultLevels (some "boom") []).2 = none := by
  decide

/-- The sink `Init` installs survives the baseline `AddDefaultKeyvals`. -/
theorem init_state_sink (s : logger.Sink) (f : logger.LogFormat) :
    (logger.initState s f).defaultLevels.internalLogger.sink = s := by
  unfold logger.initState logger.AddDefaultKeyvals
  exact kitWith_sink _ _

/-- Claim C10: `Init` rejects every unrecognized format with a panic
(modelled as `Except.error`) and, for each of the three recognized
formats, returns normally having installed the corresponding sink. -/
theorem init_format_validation (w : Option logger.GoError) :
    (∀ format : logger.LogFormat,
        format ≠ logger.FormatJson → format ≠ logger.FormatLogfmt →
        format ≠ logger.FormatNop →
        logger.Init format w
          = Except.error ("invalid log format: " ++ toString format)) ∧
    Except.map
        (fun st : logger.LoggerState => st.defaultLevels.internalLogger.sink.kind)
        (logger.Init logger.FormatJson w) = Except.ok logger.SinkKind.json ∧
    Except.map
        (fun st : logger.LoggerState => st.defaultLevels.internalLogger.sink.kind)
        (logger.Init logger.FormatLogfmt w) = Except.ok logger.SinkKind.logfmt ∧
    Except.map
        (fun st : logger.LoggerState => st.defaultLevels.internalLogger.sink.kind)
        (logger.Init logger.FormatNop w) = Except.ok logger.SinkKind.nop := by
  refine ⟨?_, ?_, ?_, ?_⟩
  · intro format hj hl hn
    unfold logger.Init
    rw [if_neg hj, if_neg hl, if_neg hn]
  · unfold logger.Init
    rw [if_pos rfl]
    simp only [Except.map]
    rw [init_state_sink]
  · unfold logger.Init
    rw [if_neg (by decide), if_pos rfl]
    simp only [Except.map]
    rw [init_state_sink]
  · unfold logger.Init
    rw [if_neg (by decide), if_neg (by decide), if_pos rfl]
    simp only [Except.map]
    rw [init_state_sink]

/-- Witness for C10: format 7 is rejected; format JSON installs the
JSON sink. -/
theorem init_format_validation_witness :
    logger.Init 7 none
      = Except.error ("invalid log format: " ++ toString (7 : logger.LogFormat)) ∧
    Except.map
        (fun st : logger.LoggerState => st.defaultLevels.internalLogger.sink.kind)
        (logger.Init logger.FormatJson none) = Except.ok logger.SinkKind.json :=
  ⟨(init_format_validation none).1 7 (by decide) (by decide) (by decide),
   (init_format_validation none).2.1⟩
